import Mathlib

/-
Verification of the queue-management bot in sotd_bot.py.

The development shallowly embeds the program: each Python handler becomes a
Lean function on the loaded queue, stateful effects (file save, outbound
post) become explicit effect traces, and the storage file becomes an
explicit file-state value.  Definitions are transcribed from the source;
source line numbers are given in the doc comments.
-/

namespace SotdBot

/-- A queue entry, transcribed from the dictionaries
`{"user_id": ..., "name": ...}` built at src/sotd_bot.py line 95.
`user_id` is the identity (dedup key), `name` the display name. -/
structure Participant where
  user_id : String
  name : String
deriving DecidableEq, Repr

/-- The queue: an ordered list of participants, front first
(the JSON list persisted in QUEUE_FILE). -/
abbrev Queue := List Participant

/-! ## Queue Engine: pure state transitions of the handlers -/

/-- Outcome of `_signup` (src lines 90-97): either the "already queued"
no-op message branch or the "joined" append branch. -/
inductive SignupResult
  | alreadyQueued
  | joined
deriving DecidableEq, Repr

/-- Queue transition of `_signup(user_id, name)` (src lines 90-97):
if any entry has this `user_id`, no mutation; otherwise append
the new entry at the back. -/
def signupQueue (uid nm : String) (q : Queue) : SignupResult × Queue :=
  if q.any (fun e => e.user_id == uid) then
    (SignupResult.alreadyQueued, q)
  else
    (SignupResult.joined, q ++ [⟨uid, nm⟩])

/-- Outcome of `_signout` (src lines 100-107). -/
inductive SignoutResult
  | notInQueue
  | left
deriving DecidableEq, Repr

/-- Queue transition of `_signout(user_id, name)` (src lines 100-107):
`new_q = [e for e in q if e["user_id"] != user_id]`; if the length is
unchanged nothing matched and no mutation happens, else `new_q` is saved. -/
def signoutQueue (uid : String) (q : Queue) : SignoutResult × Queue :=
  let new_q := q.filter (fun e => e.user_id != uid)
  if new_q.length = q.length then
    (SignoutResult.notInQueue, q)
  else
    (SignoutResult.left, new_q)

/-- Queue transition of the rotation in `_daily_ping` (src lines 133-143):
on the empty queue nothing happens and nothing is returned; otherwise
`current = q.pop(0)` is removed from the front, appended unchanged at the
back (`q.append(current)`), and returned as the subject of the ping. -/
def rotateQueue (q : Queue) : Option Participant × Queue :=
  match q with
  | [] => (none, [])
  | current :: rest => (some current, rest ++ [current])

/-! ## Effect traces: the order of saves and posts inside each handler -/

/-- An observable side effect of a handler: a durable write of the queue
file (`_save_queue`, src lines 61-66) or an outbound chat message
(`_post`, src lines 72-84, with its optional mention subject). -/
inductive Effect
  | save (q : Queue)
  | post (text : String) (mention : Option Participant)
deriving DecidableEq, Repr

def isSaveE : Effect → Bool
  | Effect.save _ => true
  | _ => false

def isPostE : Effect → Bool
  | Effect.post _ _ => true
  | _ => false

/-- `true` when no post occurs before the first save of the trace:
a failing save aborts the handler, so only effects before it happen. -/
def saveFirst (effs : List Effect) : Bool :=
  (effs.takeWhile (fun e => !(isSaveE e))).all (fun e => !(isPostE e))

/-- Effect trace of `_signup` (src lines 90-97): the duplicate branch only
posts; the join branch saves the appended queue, then posts.
Message text transcribed with ASCII punctuation, emoji elided. -/
def signupEffects (uid nm : String) (q : Queue) : List Effect :=
  if q.any (fun e => e.user_id == uid) then
    [Effect.post (nm ++ ", you are already in the queue") none]
  else
    [Effect.save (q ++ [⟨uid, nm⟩]),
     Effect.post (nm ++ " joined the Song-of-the-Day queue!") none]

/-- Effect trace of `_signout` (src lines 100-107): the absent branch only
posts; the removal branch saves the filtered queue, then posts. -/
def signoutEffects (uid nm : String) (q : Queue) : List Effect :=
  let new_q := q.filter (fun e => e.user_id != uid)
  if new_q.length = q.length then
    [Effect.post (nm ++ ", you were not in the queue") none]
  else
    [Effect.save new_q,
     Effect.post (nm ++ " left the queue. See you next time!") none]

/-- Effect trace of `_daily_ping` (src lines 133-143): empty queue does
nothing; otherwise the mention post (line 138) is issued first and the
rotated queue is saved afterwards (line 143). -/
def dailyPingEffects (q : Queue) : List Effect :=
  match q with
  | [] => []
  | current :: rest =>
    [Effect.post ("@" ++ current.name ++ " it is your turn to share the song of the day!")
       (some current),
     Effect.save (rest ++ [current])]

/-- Claim C2 as stated: in every mutating branch of signup, signout and
the daily rotation, no outbound post happens before the queue save. -/
def persistBeforeClaimStated : Prop :=
  (∀ uid nm : String, ∀ q : Queue, (∀ e ∈ q, e.user_id ≠ uid) →
    saveFirst (signupEffects uid nm q) = true) ∧
  (∀ uid nm : String, ∀ q : Queue, (∃ e ∈ q, e.user_id = uid) →
    saveFirst (signoutEffects uid nm q) = true) ∧
  (∀ q : Queue, q ≠ [] → saveFirst (dailyPingEffects q) = true)

/-! ## Command Dispatcher (the Flask `callback`, src lines 156-175) -/

/-- An inbound webhook delivery: the four fields the callback reads. -/
structure InboundEvent where
  sender_type : String
  sender_id : String
  name : String
  text : String
deriving DecidableEq, Repr

/-- The operation a recognized command token dispatches to. -/
inductive Command
  | signupCmd
  | signoutCmd
  | queueCmd
  | helpCmd
deriving DecidableEq, Repr

/-- ASCII lower-casing of one character, the effect of Python
`str.lower()` on the command tokens in play. -/
def lowerChar (c : Char) : Char :=
  if 65 ≤ c.toNat ∧ c.toNat ≤ 90 then Char.ofNat (c.toNat + 32) else c

/-- `str.lower()` on a whole string. -/
def lowerStr (s : String) : String :=
  String.mk (s.data.map lowerChar)

def isWS (c : Char) : Bool :=
  c == ' ' || c == '\t' || c == '\n' || c == '\r'

/-- `str.strip()`: drop whitespace from both ends. -/
def stripStr (s : String) : String :=
  String.mk (((s.data.dropWhile isWS).reverse.dropWhile isWS).reverse)

/-- The four recognized command tokens (src lines 166-174). -/
def fourTokens : List String := ["!signup", "!signout", "!queue", "!help"]

/-- The dispatch decision of `callback` (src lines 156-175): events whose
`sender_type` is not `"user"` are dropped before any dispatch (line 159);
otherwise the text is stripped and lower-cased (line 162) and matched
against the four tokens; anything else falls through with no operation
and no reply. -/
def dispatch (ev : InboundEvent) : Option Command :=
  if ev.sender_type ≠ "user" then none
  else
    let t := lowerStr (stripStr ev.text)
    if t = "!signup" then some Command.signupCmd
    else if t = "!signout" then some Command.signoutCmd
    else if t = "!queue" then some Command.queueCmd
    else if t = "!help" then some Command.helpCmd
    else none

/-- Claim C6 as stated: non-user events are ignored, and any inbound text
that is not a case-variant of one of the four tokens dispatches nothing. -/
def dispatchClaimStated : Prop :=
  (∀ ev : InboundEvent, ev.sender_type ≠ "user" → dispatch ev = none) ∧
  (∀ ev : InboundEvent, ev.sender_type = "user" →
    lowerStr ev.text ∉ fourTokens → dispatch ev = none)

/-! ## Queue Store (src lines 54-66) -/

/-- A JSON document, the value space of `json.load` / `json.dump`. -/
inductive Json
  | null
  | bool (b : Bool)
  | num (n : Int)
  | str (s : String)
  | arr (xs : List Json)
  | obj (kvs : List (String × Json))

/-- The bytes of an existing storage file, as seen through `json.load`:
either they fail to parse (`json.load` raises) or they parse to a
document. -/
inductive FileContent
  | malformed
  | json (v : Json)

/-- The storage location: `QUEUE_FILE` may be absent or hold content. -/
inductive FileState
  | absent
  | present (c : FileContent)

/-- `_load_queue` (src lines 54-58): an absent file yields the empty
list; an existing file is handed to `json.load`, which raises a hard
error on malformed content and returns the parsed document otherwise. -/
def loadQueue : FileState → Except String Json
  | FileState.absent => Except.ok (Json.arr [])
  | FileState.present FileContent.malformed => Except.error "malformed JSON"
  | FileState.present (FileContent.json v) => Except.ok v

def isErr {ε α : Type} : Except ε α → Bool
  | Except.error _ => true
  | Except.ok _ => false

/-- `json.dump` of one queue entry: the two-field object written by
`_save_queue` (src lines 61-66) for an entry built at line 95. -/
def encodeEntry (e : Participant) : Json :=
  Json.obj [("user_id", Json.str e.user_id), ("name", Json.str e.name)]

/-- `json.dump` of the whole queue: the ordered JSON list. -/
def encodeQueue (q : Queue) : Json :=
  Json.arr (q.map encodeEntry)

/-- `_save_queue` (src lines 61-66): write the serialized queue to a
temporary file, then atomically replace the storage file, leaving it
present with the encoded document. -/
def saveQueue (q : Queue) : FileState :=
  FileState.present (FileContent.json (encodeQueue q))

/-- Read one entry the way the handlers do (`e["user_id"]`, `e["name"]`,
both expected to be strings). -/
def decodeEntry : Json → Option Participant
  | Json.obj kvs =>
    match (kvs.find? (fun kv => kv.1 == "user_id")).map Prod.snd,
          (kvs.find? (fun kv => kv.1 == "name")).map Prod.snd with
    | some (Json.str u), some (Json.str n) => some ⟨u, n⟩
    | _, _ => none
  | _ => none

/-- Read a list of stored entries in order, failing on the first entry
that does not have the expected shape. -/
def decodeEntries : List Json → Option Queue
  | [] => some []
  | j :: js =>
    match decodeEntry j, decodeEntries js with
    | some e, some es => some (e :: es)
    | _, _ => none

/-- Read a whole stored queue: a JSON list of entry objects. -/
def decodeQueue : Json → Option Queue
  | Json.arr xs => decodeEntries xs
  | _ => none

/-! ## Mention placement in `_post` (src lines 72-84) -/

/-- Python `text.find(tag)` over code points: the least index at which
`pat` occurs in `hay`, if any. -/
def strFind (hay pat : List Char) : Option Nat :=
  if pat = hay.take pat.length then some 0
  else
    match hay with
    | [] => none
    | _ :: t => (strFind t pat).map (fun n => n + 1)

/-- `pat` occurs in `hay` starting at index `i`. -/
def occursAt (hay pat : List Char) (i : Nat) : Prop :=
  pat = (hay.drop i).take pat.length

/-- The mentions attachment `_post` builds (src lines 74-82): locate the
literal `"@" + name` tag in the text; when found, attach the mention's
user id with locus `[start, len(tag)]`; when absent (`find` returns -1),
send with no attachment at all. -/
def postAttachment (text : String) (mention : Option Participant) :
    Option (String × Nat × Nat) :=
  match mention with
  | none => none
  | some m =>
    let tag := "@" ++ m.name
    match strFind text.data tag.data with
    | none => none
    | some start => some (m.user_id, start, tag.data.length)

/-! ## Scheduler -/

/-- Modelled from the spec: the daily trigger of `_scheduler_thread`
(src lines 146-150) delegates to the external `schedule` library, whose
code is not part of this repository.  Spec section 4.3 specifies the
scheduler as a repeating tick whose states reset after local midnight,
and section 9 describes the implementation as a periodic tick plus a
last-fired-date guard.  Time is in minutes; a day has 1440 of them. -/
structure SchedState where
  lastFiredDay : Option Nat
deriving DecidableEq, Repr

/-- Calendar day of an absolute time in minutes. -/
def dayOf (now : Nat) : Nat := now / 1440

/-- Wall-clock minute-of-day of an absolute time. -/
def minuteOf (now : Nat) : Nat := now % 1440

/-- Modelled from the spec: one tick check at absolute time `now` with
daily trigger minute `trigger`.  It fires when the trigger time has
passed today and the job has not already fired today, recording the day
of the firing. -/
def schedTick (trigger : Nat) (s : SchedState) (now : Nat) : Bool × SchedState :=
  if trigger ≤ minuteOf now ∧ s.lastFiredDay ≠ some (dayOf now) then
    (true, ⟨some (dayOf now)⟩)
  else
    (false, s)

/-- Modelled from the spec: run the tick loop over a list of check
times, collecting the times at which the job fired. -/
def schedFires (trigger : Nat) : SchedState → List Nat → List Nat
  | _, [] => []
  | s, t :: ts =>
    let r := schedTick trigger s t
    if r.1 then t :: schedFires trigger r.2 ts else schedFires trigger r.2 ts

/-! ## Theorems -/

/-- C1: rotate on the empty queue mutates nothing and returns none; on a
non-empty queue it removes the front element, appends that very element
(identity and display name unchanged) at the back, and returns it, so the
result is exactly one left-rotation: the length and the multiset of
entries (hence of identities) are unchanged, only the order moves. -/
theorem rotate_is_left_rotation :
    rotateQueue [] = (none, []) ∧
    ∀ current : Participant, ∀ rest : Queue,
      rotateQueue (current :: rest) = (some current, rest ++ [current]) ∧
      rest ++ [current] = (current :: rest).rotate 1 ∧
      (rest ++ [current]).length = (current :: rest).length ∧
      List.Perm (rest ++ [current]) (current :: rest) ∧
      List.Perm ((rest ++ [current]).map Participant.user_id)
        ((current :: rest).map Participant.user_id) := by
  refine ⟨rfl, fun current rest => ⟨rfl, ?_, ?_, ?_, ?_⟩⟩
  · rw [List.rotate_cons_succ, List.rotate_zero]
  · simp
  · exact List.perm_append_singleton _ _
  · exact (List.perm_append_singleton _ _).map _

/-- C3: signing up an identity already in the queue mutates nothing (the
stored display name included) and yields the "already queued" outcome;
signing up a fresh identity appends the new entry at the back and yields
the "joined" outcome. -/
theorem signup_appends_or_noop (uid nm : String) (q : Queue) :
    ((∃ e ∈ q, e.user_id = uid) →
      signupQueue uid nm q = (SignupResult.alreadyQueued, q)) ∧
    ((∀ e ∈ q, e.user_id ≠ uid) →
      signupQueue uid nm q = (SignupResult.joined, q ++ [⟨uid, nm⟩])) := by
  constructor
  · intro h
    have hb : q.any (fun e => e.user_id == uid) = true := by
      rcases h with ⟨e, he, heq⟩
      exact List.any_eq_true.2 ⟨e, he, by simp [heq]⟩
    simp [signupQueue, hb]
  · intro h
    have hb : q.any (fun e => e.user_id == uid) = false := by
      rw [Bool.eq_false_iff]
      intro hc
      rcases List.any_eq_true.1 hc with ⟨e, he, heq⟩
      exact h e he (by simpa using heq)
    simp [signupQueue, hb]

/-- Witness for C3 at concrete inputs: a duplicate signup is a no-op and
a fresh signup appends at the back. -/
theorem signup_appends_or_noop_witness :
    signupQueue "u1" "Ann" [⟨"u1", "Old"⟩] =
      (SignupResult.alreadyQueued, [⟨"u1", "Old"⟩]) ∧
    signupQueue "u2" "Bob" [⟨"u1", "Old"⟩] =
      (SignupResult.joined, [⟨"u1", "Old"⟩, ⟨"u2", "Bob"⟩]) :=
  ⟨(signup_appends_or_noop "u1" "Ann" [⟨"u1", "Old"⟩]).1 (by decide),
   (signup_appends_or_noop "u2" "Bob" [⟨"u1", "Old"⟩]).2 (by decide)⟩

/-- C4: on a queue whose identities are duplicate-free, signing out a
present identity removes exactly that entry, keeping the remaining
entries in their relative order, and yields the "left" outcome; signing
out an absent identity mutates nothing and yields "not in queue".  In
every case the resulting queue is a sublist of the original. -/
theorem signout_removes_or_noop (uid : String) (q : Queue)
    (hnd : (q.map Participant.user_id).Nodup) :
    ((∀ e ∈ q, e.user_id ≠ uid) →
      signoutQueue uid q = (SignoutResult.notInQueue, q)) ∧
    (∀ l1 l2 : Queue, ∀ e : Participant, q = l1 ++ e :: l2 → e.user_id = uid →
      signoutQueue uid q = (SignoutResult.left, l1 ++ l2)) ∧
    List.Sublist (signoutQueue uid q).2 q := by
  refine ⟨?_, ?_, ?_⟩
  · intro h
    have hf : q.filter (fun e => e.user_id != uid) = q :=
      List.filter_eq_self.2 (fun e he => by simp [h e he])
    simp [signoutQueue, hf]
  · intro l1 l2 e hq heq
    subst hq
    have h1 : ∀ x ∈ l1, x.user_id ≠ uid := by
      intro x hx hxe
      have hdisj := List.disjoint_of_nodup_append (by simpa using hnd)
      exact hdisj (List.mem_map_of_mem Participant.user_id hx)
        (by simp [heq, hxe])
    have h2 : ∀ x ∈ l2, x.user_id ≠ uid := by
      intro x hx hxe
      have hcons : (e.user_id :: l2.map Participant.user_id).Nodup :=
        ((List.nodup_append.1 (by simpa using hnd)).2).1
      exact (List.nodup_cons.1 hcons).1
        (by rw [heq, ← hxe]; exact List.mem_map_of_mem Participant.user_id hx)
    have hf1 : l1.filter (fun x => x.user_id != uid) = l1 :=
      List.filter_eq_self.2 (fun x hx => by simp [h1 x hx])
    have hf2 : l2.filter (fun x => x.user_id != uid) = l2 :=
      List.filter_eq_self.2 (fun x hx => by simp [h2 x hx])
    have hfe : (e.user_id != uid) = false := by simp [heq]
    have hfil : (l1 ++ e :: l2).filter (fun x => x.user_id != uid) = l1 ++ l2 := by
      rw [List.filter_append, hf1, List.filter_cons]
      simp only [hfe]
      simp [hf2]
    have hlen : (l1 ++ l2).length ≠ (l1 ++ e :: l2).length := by
      simp only [List.length_append, List.length_cons]
      omega
    simp only [signoutQueue, hfil]
    rw [if_neg hlen]
  · unfold signoutQueue
    dsimp only
    split
    · exact List.Sublist.refl q
    · exact List.filter_sublist q

/-- Witness for C4 at concrete inputs: removing a present identity keeps
the rest in order; removing an absent identity is a no-op. -/
theorem signout_removes_or_noop_witness :
    signoutQueue "u1" [⟨"u1", "Ann"⟩, ⟨"u2", "Bob"⟩] =
      (SignoutResult.left, [⟨"u2", "Bob"⟩]) ∧
    signoutQueue "u3" [⟨"u1", "Ann"⟩, ⟨"u2", "Bob"⟩] =
      (SignoutResult.notInQueue, [⟨"u1", "Ann"⟩, ⟨"u2", "Bob"⟩]) :=
  ⟨(signout_removes_or_noop "u1" [⟨"u1", "Ann"⟩, ⟨"u2", "Bob"⟩]
      (by decide)).2.1 [] [⟨"u2", "Bob"⟩] ⟨"u1", "Ann"⟩ rfl rfl,
   (signout_removes_or_noop "u3" [⟨"u1", "Ann"⟩, ⟨"u2", "Bob"⟩]
      (by decide)).1 (by decide)⟩

/-- C5: the deduplication invariant (no two entries share an identity)
is preserved by signup, signout and rotation. -/
theorem ops_preserve_nodup (uid nm : String) (q : Queue)
    (hnd : (q.map Participant.user_id).Nodup) :
    ((signupQueue uid nm q).2.map Participant.user_id).Nodup ∧
    ((signoutQueue uid q).2.map Participant.user_id).Nodup ∧
    ((rotateQueue q).2.map Participant.user_id).Nodup := by
  refine ⟨?_, ?_, ?_⟩
  · unfold signupQueue
    split
    · exact hnd
    · rename_i hb
      have huid : uid ∉ q.map Participant.user_id := by
        intro hm
        rcases List.mem_map.1 hm with ⟨e, he, heq⟩
        exact hb (List.any_eq_true.2 ⟨e, he, by simp [heq]⟩)
      exact ((List.perm_append_singleton (⟨uid, nm⟩ : Participant) q).map
        Participant.user_id).nodup_iff.2 (List.nodup_cons.2 ⟨huid, hnd⟩)
  · unfold signoutQueue
    dsimp only
    split
    · exact hnd
    · exact List.Nodup.sublist ((List.filter_sublist q).map Participant.user_id) hnd
  · cases q with
    | nil => simp [rotateQueue]
    | cons current rest =>
      simp only [rotateQueue]
      exact ((List.perm_append_singleton current rest).map
        Participant.user_id).nodup_iff.2 hnd

/-- Witness for C5 at a concrete duplicate-free queue. -/
theorem ops_preserve_nodup_witness :
    (([⟨"u1", "Ann"⟩, ⟨"u2", "Bob"⟩] : Queue).map Participant.user_id).Nodup ∧
    ((signupQueue "u9" "Zed" [⟨"u1", "Ann"⟩, ⟨"u2", "Bob"⟩]).2.map
      Participant.user_id).Nodup ∧
    ((signoutQueue "u9" [⟨"u1", "Ann"⟩, ⟨"u2", "Bob"⟩]).2.map
      Participant.user_id).Nodup ∧
    ((rotateQueue [⟨"u1", "Ann"⟩, ⟨"u2", "Bob"⟩]).2.map
      Participant.user_id).Nodup := by
  have h := ops_preserve_nodup "u9" "Zed" [⟨"u1", "Ann"⟩, ⟨"u2", "Bob"⟩] (by decide)
  exact ⟨by decide, h.1, h.2.1, h.2.2⟩

/-- C2 counterexample: the claim that every mutating operation posts only
after the save fails on the daily rotation.  On the one-entry queue
[(u1, Ann)], `_daily_ping` issues the mention post first and saves the
rotated queue afterwards, so a post occurs before the first save. -/
theorem daily_ping_posts_before_save : ¬persistBeforeClaimStated := by
  intro h
  have hq := h.2.2 [⟨"u1", "Ann"⟩] (by decide)
  exact absurd hq (by decide)

/-- C2 amended: signup and signout dispatch their success message only
after the mutated queue has been saved (a failed save therefore aborts
the handler before the message); the daily rotation instead dispatches
the notification first and saves the rotated queue afterwards. -/
theorem mutation_saved_before_success_post :
    (∀ uid nm : String, ∀ q : Queue, (∀ e ∈ q, e.user_id ≠ uid) →
      signupEffects uid nm q =
        [Effect.save (q ++ [⟨uid, nm⟩]),
         Effect.post (nm ++ " joined the Song-of-the-Day queue!") none] ∧
      saveFirst (signupEffects uid nm q) = true) ∧
    (∀ uid nm : String, ∀ q : Queue, (∃ e ∈ q, e.user_id = uid) →
      signoutEffects uid nm q =
        [Effect.save (q.filter (fun e => e.user_id != uid)),
         Effect.post (nm ++ " left the queue. See you next time!") none] ∧
      saveFirst (signoutEffects uid nm q) = true) ∧
    (∀ current : Participant, ∀ rest : Queue,
      dailyPingEffects (current :: rest) =
        [Effect.post
           ("@" ++ current.name ++ " it is your turn to share the song of the day!")
           (some current),
         Effect.save (rest ++ [current])]) := by
  refine ⟨?_, ?_, fun current rest => rfl⟩
  · intro uid nm q h
    have hb : q.any (fun e => e.user_id == uid) = false := by
      rw [Bool.eq_false_iff]
      intro hc
      rcases List.any_eq_true.1 hc with ⟨e, he, heq⟩
      exact h e he (by simpa using heq)
    constructor
    · simp [signupEffects, hb]
    · simp [saveFirst, signupEffects, hb, isSaveE]
  · intro uid nm q h
    rcases h with ⟨e, he, heq⟩
    have hlt : (q.filter (fun e => e.user_id != uid)).length < q.length :=
      List.length_filter_lt_length_iff_exists.2 ⟨e, he, by simp [heq]⟩
    have hne : (q.filter (fun e => e.user_id != uid)).length ≠ q.length :=
      Nat.ne_of_lt hlt
    constructor
    · simp only [signoutEffects]
      rw [if_neg hne]
    · simp only [saveFirst, signoutEffects]
      rw [if_neg hne]
      simp [isSaveE]

/-- Witness for C2 amended at concrete inputs: the fresh-signup trace and
the present-signout trace save before posting; the rotation trace posts
before saving. -/
theorem mutation_saved_before_success_post_witness :
    saveFirst (signupEffects "u2" "Bob" [⟨"u1", "Ann"⟩]) = true ∧
    saveFirst (signoutEffects "u1" "Ann" [⟨"u1", "Ann"⟩]) = true ∧
    dailyPingEffects [⟨"u1", "Ann"⟩] =
      [Effect.post "@Ann it is your turn to share the song of the day!"
         (some ⟨"u1", "Ann"⟩),
       Effect.save [⟨"u1", "Ann"⟩]] := by
  have h := mutation_saved_before_success_post
  refine ⟨(h.1 "u2" "Bob" [⟨"u1", "Ann"⟩] (by decide)).2,
          (h.2.1 "u1" "Ann" [⟨"u1", "Ann"⟩] (by decide)).2,
          ?_⟩
  have hd := h.2.2 ⟨"u1", "Ann"⟩ []
  simpa using hd

/-- C6 counterexample: the claim that any text that is not a
case-variant of one of the four tokens dispatches nothing fails, because
the callback strips surrounding whitespace before matching: the text
" !signup" (with a leading space, not a case-variant of any token) still
dispatches the signup operation. -/
theorem dispatch_strips_whitespace : ¬dispatchClaimStated := by
  intro h
  have hd := h.2 ⟨"user", "u1", "Ann", " !signup"⟩ rfl (by decide)
  exact absurd hd (by decide)

/-- C6 amended: non-user events are ignored before any dispatch; the
inbound text is first stripped of surrounding whitespace and lower-cased,
and exactly the four tokens !signup, !signout, !queue, !help map to their
operations; any text whose stripped, lower-cased form is none of the four
dispatches nothing and sends no reply. -/
theorem dispatch_four_tokens (ev : InboundEvent) :
    (ev.sender_type ≠ "user" → dispatch ev = none) ∧
    (ev.sender_type = "user" →
      (lowerStr (stripStr ev.text) = "!signup" →
        dispatch ev = some Command.signupCmd) ∧
      (lowerStr (stripStr ev.text) = "!signout" →
        dispatch ev = some Command.signoutCmd) ∧
      (lowerStr (stripStr ev.text) = "!queue" →
        dispatch ev = some Command.queueCmd) ∧
      (lowerStr (stripStr ev.text) = "!help" →
        dispatch ev = some Command.helpCmd) ∧
      (lowerStr (stripStr ev.text) ∉ fourTokens → dispatch ev = none)) := by
  constructor
  · intro h
    simp [dispatch, h]
  · intro hu
    refine ⟨fun h => ?_, fun h => ?_, fun h => ?_, fun h => ?_, fun h => ?_⟩
    · simp [dispatch, hu, h]
    · simp [dispatch, hu, h]
    · simp [dispatch, hu, h]
    · simp [dispatch, hu, h]
    · simp only [fourTokens, List.mem_cons, List.not_mem_nil, or_false,
        not_or] at h
      simp [dispatch, hu, h.1, h.2.1, h.2.2.1, h.2.2.2]

/-- Witness for C6 amended at concrete inputs: a non-user event is
dropped, an upper-case token with surrounding whitespace still
dispatches, and unrecognized text dispatches nothing. -/
theorem dispatch_four_tokens_witness :
    dispatch ⟨"bot", "u1", "Ann", "!signup"⟩ = none ∧
    dispatch ⟨"user", "u1", "Ann", " !SIGNUP "⟩ = some Command.signupCmd ∧
    dispatch ⟨"user", "u1", "Ann", "hello"⟩ = none :=
  ⟨(dispatch_four_tokens ⟨"bot", "u1", "Ann", "!signup"⟩).1 (by decide),
   ((dispatch_four_tokens ⟨"user", "u1", "Ann", " !SIGNUP "⟩).2 rfl).1
     (by decide),
   ((dispatch_four_tokens ⟨"user", "u1", "Ann", "hello"⟩).2 rfl).2.2.2.2
     (by decide)⟩

/-- C7: loading from an absent storage file yields the empty queue (the
returned document is exactly the encoding of the empty queue, and decodes
to it), while loading an existing file with malformed content is a hard
error rather than a silent default. -/
theorem load_absent_empty_malformed_error :
    loadQueue FileState.absent = Except.ok (encodeQueue []) ∧
    decodeQueue (encodeQueue []) = some [] ∧
    isErr (loadQueue (FileState.present FileContent.malformed)) = true :=
  ⟨rfl, rfl, rfl⟩

/-- C9: saving a queue and loading with no intervening mutation
reproduces an equivalent queue: the loaded document is the saved
encoding, and decoding it yields exactly the original entries, same
identities, display names and order. -/
theorem save_load_roundtrip (q : Queue) :
    loadQueue (saveQueue q) = Except.ok (encodeQueue q) ∧
    decodeQueue (encodeQueue q) = some q := by
  refine ⟨rfl, ?_⟩
  induction q with
  | nil => rfl
  | cons e t ih =>
    have he : decodeEntry (encodeEntry e) = some e := by
      cases e
      rfl
    simp only [decodeQueue, encodeQueue, List.map_cons, decodeEntries, he]
    simp only [decodeQueue, encodeQueue] at ih
    simp [ih]

theorem occursAt_zero (hay pat : List Char) :
    occursAt hay pat 0 ↔ pat = hay.take pat.length := by
  simp [occursAt]

theorem occursAt_cons_succ (c : Char) (t pat : List Char) (j : Nat) :
    occursAt (c :: t) pat (j + 1) ↔ occursAt t pat j := by
  simp [occursAt, List.drop_succ_cons]

/-- `strFind` returns an actual occurrence, and the least one. -/
theorem strFind_some_first : ∀ hay pat : List Char, ∀ i : Nat,
    strFind hay pat = some i →
    occursAt hay pat i ∧ ∀ j : Nat, j < i → ¬occursAt hay pat j := by
  intro hay
  induction hay with
  | nil =>
    intro pat i h
    unfold strFind at h
    split at h
    · rename_i hp
      cases h
      exact ⟨(occursAt_zero [] pat).2 hp, fun j hj => absurd hj (Nat.not_lt_zero j)⟩
    · cases h
  | cons c t ih =>
    intro pat i h
    unfold strFind at h
    split at h
    · rename_i hp
      cases h
      exact ⟨(occursAt_zero (c :: t) pat).2 hp,
        fun j hj => absurd hj (Nat.not_lt_zero j)⟩
    · rename_i hp
      rcases Option.map_eq_some'.1 h with ⟨n, hn, hi⟩
      rcases ih pat n hn with ⟨hocc, hmin⟩
      subst hi
      constructor
      · exact (occursAt_cons_succ c t pat n).2 hocc
      · intro j hj
        cases j with
        | zero =>
          intro hc
          exact hp ((occursAt_zero (c :: t) pat).1 hc)
        | succ k =>
          intro hc
          exact hmin k (Nat.lt_of_succ_lt_succ hj)
            ((occursAt_cons_succ c t pat k).1 hc)

/-- When `strFind` fails there is no occurrence at any index. -/
theorem strFind_none_no_occurrence : ∀ hay pat : List Char,
    strFind hay pat = none → ∀ j : Nat, ¬occursAt hay pat j := by
  intro hay
  induction hay with
  | nil =>
    intro pat h j hc
    unfold strFind at h
    split at h
    · cases h
    · rename_i hp
      cases j with
      | zero => exact hp ((occursAt_zero [] pat).1 hc)
      | succ k =>
        apply hp
        unfold occursAt at hc
        simpa using hc
  | cons c t ih =>
    intro pat h j hc
    unfold strFind at h
    split at h
    · cases h
    · rename_i hp
      have h2 : Option.map (fun n => n + 1) (strFind t pat) = none := h
      have hnone : strFind t pat = none := by
        cases hf : strFind t pat with
        | none => rfl
        | some n => rw [hf] at h2; cases h2
      cases j with
      | zero => exact hp ((occursAt_zero (c :: t) pat).1 hc)
      | succ k =>
        exact ih pat hnone k ((occursAt_cons_succ c t pat k).1 hc)

/-- C10: when `_post` attaches a mention, its locus is the first
occurrence of the literal tag "@display_name" in the composed text, with
the tag's length; when the tag does not occur, no mention is attached at
all. -/
theorem mention_locus_first_occurrence (text : String) (m : Participant) :
    (∀ uid : String, ∀ start len : Nat,
      postAttachment text (some m) = some (uid, start, len) →
      uid = m.user_id ∧ len = ("@" ++ m.name).data.length ∧
      occursAt text.data ("@" ++ m.name).data start ∧
      ∀ j : Nat, j < start → ¬occursAt text.data ("@" ++ m.name).data j) ∧
    (postAttachment text (some m) = none →
      ∀ j : Nat, ¬occursAt text.data ("@" ++ m.name).data j) := by
  constructor
  · intro uid start len h
    simp only [postAttachment] at h
    cases hf : strFind text.data ("@" ++ m.name).data with
    | none => rw [hf] at h; cases h
    | some n =>
      rw [hf] at h
      cases h
      rcases strFind_some_first text.data ("@" ++ m.name).data _ hf with ⟨hocc, hmin⟩
      exact ⟨rfl, rfl, hocc, hmin⟩
  · intro h
    simp only [postAttachment] at h
    cases hf : strFind text.data ("@" ++ m.name).data with
    | none => exact strFind_none_no_occurrence text.data ("@" ++ m.name).data hf
    | some n => rw [hf] at h; cases h

/-- Witness for C10 at concrete inputs: in "hi @Ann" the tag "@Ann" is
located at offset 3 with length 4, and in "no tag here" no mention is
attached. -/
theorem mention_locus_first_occurrence_witness :
    postAttachment "hi @Ann" (some ⟨"u1", "Ann"⟩) = some ("u1", 3, 4) ∧
    occursAt "hi @Ann".data ("@" ++ "Ann").data 3 ∧
    postAttachment "no tag here" (some ⟨"u1", "Ann"⟩) = none := by
  have h1 : postAttachment "hi @Ann" (some ⟨"u1", "Ann"⟩) = some ("u1", 3, 4) := by
    decide
  exact ⟨h1,
    ((mention_locus_first_occurrence "hi @Ann" ⟨"u1", "Ann"⟩).1 "u1" 3 4 h1).2.2.1,
    by decide⟩

/-- Day numbers are monotone in absolute time. -/
theorem dayOf_mono {a b : Nat} (h : a ≤ b) : dayOf a ≤ dayOf b :=
  Nat.div_le_div_right h

/-- Invariant of the tick loop: over any chronologically ordered list of
check times, the days of the firings are pairwise distinct, and once the
guard records a day every later firing is on a strictly later day. -/
theorem schedFires_aux (trigger : Nat) : ∀ ts : List Nat, ∀ s : SchedState,
    List.Sorted (fun a b => a ≤ b) ts →
    (∀ d : Nat, s.lastFiredDay = some d → ∀ t ∈ ts, d ≤ dayOf t) →
    ((schedFires trigger s ts).map dayOf).Nodup ∧
    (∀ d : Nat, s.lastFiredDay = some d →
      ∀ u ∈ schedFires trigger s ts, d < dayOf u) := by
  intro ts
  induction ts with
  | nil =>
    intro s hsort hpre
    exact ⟨List.nodup_nil, fun d hd u hu => absurd hu (List.not_mem_nil u)⟩
  | cons t ts ih =>
    intro s hsort hpre
    have hsort2 : List.Sorted (fun a b => a ≤ b) ts := hsort.of_cons
    have hle : ∀ b ∈ ts, t ≤ b := List.rel_of_sorted_cons hsort
    by_cases hc : trigger ≤ minuteOf t ∧ s.lastFiredDay ≠ some (dayOf t)
    · have hstep : schedTick trigger s t = (true, ⟨some (dayOf t)⟩) := by
        simp [schedTick, hc]
      have hpre2 : ∀ d : Nat,
          (SchedState.mk (some (dayOf t))).lastFiredDay = some d →
          ∀ u ∈ ts, d ≤ dayOf u := by
        intro d hd u hu
        cases hd
        exact dayOf_mono (hle u hu)
      rcases ih ⟨some (dayOf t)⟩ hsort2 hpre2 with ⟨hnd, hgt⟩
      have hfires : schedFires trigger s (t :: ts) =
          t :: schedFires trigger ⟨some (dayOf t)⟩ ts := by
        simp [schedFires, hstep]
      have hrest : ∀ u ∈ schedFires trigger ⟨some (dayOf t)⟩ ts,
          dayOf t < dayOf u := hgt (dayOf t) rfl
      constructor
      · rw [hfires, List.map_cons]
        refine List.nodup_cons.2 ⟨?_, hnd⟩
        intro hm
        rcases List.mem_map.1 hm with ⟨u, hu, hequ⟩
        exact absurd hequ (Nat.ne_of_gt (hrest u hu))
      · intro d hd u hu
        rw [hfires] at hu
        have hdt : d < dayOf t := by
          have h1 : d ≤ dayOf t := hpre d hd t (List.mem_cons_self t ts)
          have h2 : d ≠ dayOf t := by
            intro hEq
            exact hc.2 (by rw [← hEq, ← hd])
          omega
        rcases List.mem_cons.1 hu with hu | hu
        · rw [hu]; exact hdt
        · exact Nat.lt_trans hdt (hrest u hu)
    · have hstep : schedTick trigger s t = (false, s) := by
        simp only [schedTick]
        rw [if_neg hc]
      have hpre2 : ∀ d : Nat, s.lastFiredDay = some d → ∀ u ∈ ts, d ≤ dayOf u :=
        fun d hd u hu => hpre d hd u (List.mem_cons_of_mem t hu)
      have hfires : schedFires trigger s (t :: ts) = schedFires trigger s ts := by
        simp [schedFires, hstep]
      rcases ih s hsort2 hpre2 with ⟨hnd, hgt⟩
      rw [hfires]
      exact ⟨hnd, hgt⟩

/-- C8: over any chronologically ordered sequence of tick checks — in
particular one checking every few seconds across the trigger boundary —
the daily job fires at most once per calendar day: the calendar days of
the firings are pairwise distinct. -/
theorem scheduler_at_most_once_per_day (trigger : Nat) (ts : List Nat)
    (hsort : List.Sorted (fun a b => a ≤ b) ts) :
    ((schedFires trigger ⟨none⟩ ts).map dayOf).Nodup :=
  (schedFires_aux trigger ts ⟨none⟩ hsort
    (fun d hd => by cases hd)).1

/-- Witness for C8: a 09:00 trigger checked repeatedly around the
boundary on two consecutive days (minute stamps 525..555 and 1965..1995)
fires on two distinct days only. -/
theorem scheduler_at_most_once_per_day_witness :
    List.Sorted (fun a b => a ≤ b) [525, 540, 555, 1965, 1980, 1995] ∧
    ((schedFires 540 ⟨none⟩ [525, 540, 555, 1965, 1980, 1995]).map dayOf).Nodup :=
  ⟨by decide, scheduler_at_most_once_per_day 540 [525, 540, 555, 1965, 1980, 1995]
    (by decide)⟩

end SotdBot
